import Mathlib

/-!
Verification of the PDF-to-Excel converter (src/pdf2excel.py).

The program extracts tables from a PDF with pdfplumber, cleans them,
optionally merges several tables, lets the user select and reorder
columns, and exports the projection to a single-sheet Excel file.

Cells coming out of pdfplumber are either absent (`None` in Python,
mapped to NaN by pandas) or strings; we model them as `Option String`.
A pandas `DataFrame` is modelled as an ordered list of column names
plus an ordered list of rows of cells.
-/

/-- A cell of an extracted table: `none` models Python `None` / pandas NaN. -/
abbrev Cell := Option String

/-- A raw grid as returned by `page.extract_tables()`: rows of cells. -/
abbrev RawGrid := List (List Cell)

/-- Model of a pandas DataFrame: ordered column names and ordered rows. -/
structure DataFrame where
  columns : List String
  rows : List (List Cell)
deriving Repr, DecidableEq

/-- Well-formedness: every row has exactly one cell per column. -/
def DataFrame.WF (df : DataFrame) : Prop :=
  ∀ r ∈ df.rows, r.length = df.columns.length

/-- Python `str.strip()`: remove leading and trailing whitespace. -/
def pyStrip (s : String) : String :=
  ⟨((s.data.dropWhile Char.isWhitespace).reverse.dropWhile Char.isWhitespace).reverse⟩

/-- Header cleaning of one cell (src/pdf2excel.py lines 45-50):
`if h and str(h).strip(): append(str(h).strip()) else: append(f"Column_{i+1}")`. -/
def cleanHeader (i : Nat) (c : Cell) : String :=
  match c with
  | some s => if s ≠ "" ∧ pyStrip s ≠ "" then pyStrip s else "Column_" ++ toString (i + 1)
  | none => "Column_" ++ toString (i + 1)

/-- Clean a whole header row, positions counted from 1. -/
def cleanedHeaders (headers : List Cell) : List String :=
  headers.enum.map (fun p => cleanHeader p.1 p.2)

/-- `pd.DataFrame(data_rows, columns=cleaned_headers)` (line 54).
pandas turns the list of lists into an object array of width equal to the
longest row, padding shorter rows with NaN, and then fails unless the
number of column labels equals that width. -/
def mkDataFrame (cols : List String) (rows : List (List Cell)) : Option DataFrame :=
  let width := (rows.map List.length).foldl max 0
  if width = cols.length then
    some ⟨cols, rows.map (fun r => r ++ List.replicate (cols.length - r.length) (none : Cell))⟩
  else
    none

/-- A cell is NA for pandas `dropna` exactly when it is `None`.
(The empty string is not NA.) -/
def isNACell (c : Cell) : Bool := c.isNone

/-- `df.dropna(how='all')` (line 57): keep the rows with at least one
non-NA cell. -/
def dropEmptyRows (df : DataFrame) : DataFrame :=
  ⟨df.columns, df.rows.filter (fun r => !r.all isNACell)⟩

/-- Column `j` consists only of NA cells. -/
def colIsNA (rows : List (List Cell)) (j : Nat) : Bool :=
  rows.all (fun r => isNACell (r.getD j none))

/-- `df.dropna(axis=1, how='all')` (line 60): keep the columns with at
least one non-NA cell. -/
def dropEmptyCols (df : DataFrame) : DataFrame :=
  let keep := (List.range df.columns.length).filter (fun j => !colIsNA df.rows j)
  ⟨keep.map (fun j => df.columns.getD j ""), df.rows.map (fun r => keep.map (fun j => r.getD j none))⟩

/-- Processing of one detected table region (lines 39-70): the region must
have a header row plus at least one data row; the first row becomes the
(cleaned) header; the DataFrame construction may fail (caught with a
warning in the source, modelled as `none`); fully-NA rows and columns are
dropped; a table that ends up without rows or without columns is
discarded. -/
def processGrid (g : RawGrid) : Option DataFrame :=
  if g.length ≤ 1 then none
  else
    match mkDataFrame (cleanedHeaders (g.headD [])) g.tail with
    | none => none
    | some df0 =>
      if (dropEmptyCols (dropEmptyRows df0)).rows ≠ [] ∧
          (dropEmptyCols (dropEmptyRows df0)).columns ≠ [] then
        some (dropEmptyCols (dropEmptyRows df0))
      else none

/-- The errors surfaced by the ingestion step. -/
inductive IngestError where
  | extractionError (msg : String)
  | noTableFound
deriving Repr, DecidableEq

/-- The extraction loop (lines 31-76): every table region of every page is
processed, failures are skipped, and the whole extraction fails with
`noTableFound` exactly when no table survives. -/
def extractTables (pages : List (List RawGrid)) : Except IngestError (List DataFrame) :=
  let tables := pages.flatten.filterMap processGrid
  if tables.isEmpty then Except.error IngestError.noTableFound else Except.ok tables

/-- Python `set(a) == set(b)` on lists of column names. -/
def sameSet (a b : List String) : Bool :=
  a.all (fun c => c ∈ b) && b.all (fun c => c ∈ a)

/-- Column labels of `pd.concat(frames)`: the union of the frames' columns
in first-appearance order. -/
def unionCols (tables : List DataFrame) : List String :=
  tables.foldl (fun acc t => acc ++ t.columns.filter (fun c => !acc.contains c)) []

/-- Alignment of one row of a frame with columns `tcols` to the combined
column list `ucols`: a column absent from the source frame gets NaN. -/
def alignRow (tcols : List String) (ucols : List String) (r : List Cell) : List Cell :=
  ucols.map (fun c => if tcols.contains c then r.getD (tcols.indexOf c) none else none)

/-- `pd.concat([...], ignore_index=True, sort=False)` (lines 97 and 111).
When every frame carries the identical column list (the first branch) no
alignment happens: the rows are stacked and duplicate column labels are
preserved.  Otherwise the frames must be aligned to the union of their
columns, which pandas can only do for uniquely-labelled frames: with a
duplicated column label anywhere it raises (`InvalidIndexError` /
"cannot reindex on an axis with duplicate labels"), modelled as `none`. -/
def concatTables (tables : List DataFrame) : Option DataFrame :=
  match tables with
  | [] => none
  | t :: ts =>
    if ts.all (fun u => u.columns == t.columns) then
      some ⟨t.columns, ((t :: ts).map (fun u => u.rows)).flatten⟩
    else if (t :: ts).all (fun u => u.columns.Nodup) then
      some ⟨unionCols (t :: ts),
        ((t :: ts).map (fun v => v.rows.map (alignRow v.columns (unionCols (t :: ts))))).flatten⟩
    else none

/-- The merge branch (lines 90-114): the frames are concatenated in both
branches; when the column sets differ the merge is surfaced as a warning
(second component `true`).  A `pd.concat` exception escapes to the
enclosing handler at line 135, modelled as `none`. -/
def mergeAll (tables : List DataFrame) : Option (DataFrame × Bool) :=
  match tables with
  | [] => none
  | t :: ts =>
    match concatTables (t :: ts) with
    | some merged => some (merged, !(t :: ts).all (fun u => sameSet u.columns t.columns))
    | none => none

/-- The per-session state kept in `st.session_state`. -/
structure SessionState where
  df : Option DataFrame
  selected_columns : List String
  column_order : List String
deriving Repr, DecidableEq

/-- How the upload attempt turned out before any state is written: either
the PDF library raised (caught at line 135), or it produced the table
regions of each page. -/
inductive IngestInput where
  | exn (msg : String)
  | pages (ps : List (List RawGrid))

/-- The user's choice when several tables were found (lines 84-129):
merge them all, or pick one by index. -/
inductive TableChoice where
  | merge
  | pick (i : Nat)

/-- The whole upload step (lines 24-137): on a library exception or when
no table survives filtering, an error is reported and the session state is
left untouched; otherwise `st.session_state.df` is replaced by the merged
or picked table. -/
def processUpload (s : SessionState) (inp : IngestInput) (choice : TableChoice) :
    SessionState × Option IngestError :=
  match inp with
  | .exn m => (s, some (IngestError.extractionError m))
  | .pages ps =>
    match extractTables ps with
    | .error e => (s, some e)
    | .ok tables =>
      match tables, choice with
      | [t], _ => ({ s with df := some t }, none)
      | t :: ts, .merge =>
        match mergeAll (t :: ts) with
        | some m => ({ s with df := some m.1 }, none)
        | none => (s, some (IngestError.extractionError "InvalidIndexError"))
      | t :: ts, .pick i => ({ s with df := some ((t :: ts).getD (i % (t :: ts).length) t) }, none)
      | [], _ => (s, some IngestError.noTableFound)

/-- The invariant check before reordering (lines 179-180):
`if set(column_order) != set(selected_columns): column_order = selected_columns.copy()`. -/
def syncOrder (order selected : List String) : List String :=
  if sameSet order selected then order else selected

/-- Default index shown by the position-`pos` selectbox (lines 195-203):
the current order's entry at that position when it is still available,
otherwise the first available column. -/
def defaultChoice (order : List String) (pos : Nat) (avail : List String) : Nat :=
  if pos < order.length ∧ avail.contains (order.getD pos "") then
    avail.indexOf (order.getD pos "")
  else 0

/-- The reordering loop (lines 183-214), iterated
`for position in range(len(selected_columns))`: at each position a column
is chosen among the still-available ones and removed from them.  The
first argument of the recursion counts the remaining loop iterations;
`choose` models the selectbox's value (the user's pick, or the default
when the user does not interact); it is reduced modulo the number of
available columns, which the widget guarantees anyway. -/
def reorderAux (choose : Nat → List String → Nat) :
    Nat → Nat → List String → List String
  | 0, _, _ => []
  | _ + 1, _, [] => []
  | fuel + 1, pos, a :: rest =>
    let i := choose pos (a :: rest) % (a :: rest).length
    (a :: rest).getD i "" :: reorderAux choose fuel (pos + 1) ((a :: rest).eraseIdx i)

/-- One full pass of Step 3 (lines 179-217): sync the order with the
selection, then rebuild `column_order` from the selectboxes. -/
def reorderStep (selected order : List String) (choose : Nat → List String → Nat) :
    List String :=
  let synced := syncOrder order selected
  reorderAux (fun pos avail => (defaultChoice synced pos avail + choose pos avail) % avail.length)
    selected.length 0 selected

/-- `choose` for a user who does not touch the selectboxes: every widget
keeps its default. -/
def noUserChoice : Nat → List String → Nat := fun _ _ => 0

/-- Step 2 with "Select All Columns" checked followed by Step 3 rendered
with no user interaction (lines 156-223): the selection becomes the
table's columns, the order is synced and rebuilt from the defaults, and
the exported frame is the projection onto the resulting order. -/
def selectAllThenOrder (df : DataFrame) (prevOrder : List String) : List String :=
  reorderStep df.columns prevOrder noUserChoice

/-- The column positions selected by `df[order]`: for each listed label,
all positions of `df.columns` carrying that label, in positional order. -/
def projIdxs (df : DataFrame) (order : List String) : List Nat :=
  (order.map (fun c =>
    (List.range df.columns.length).filter (fun j => df.columns.getD j "" == c))).flatten

/-- `df[column_order]` (line 223): pandas list-indexing takes, for each
listed label in order, every column position whose label matches — so on
a duplicate-labelled frame one key can select several columns.  Fails
(KeyError) when a name is not a column at all. -/
def projectDF (df : DataFrame) (order : List String) : Option DataFrame :=
  if order.all (fun c => df.columns.contains c) then
    some ⟨(projIdxs df order).map (fun j => df.columns.getD j ""),
      df.rows.map (fun r => (projIdxs df order).map (fun j => r.getD j none))⟩
  else none

/-- One sheet of the produced workbook. -/
structure Sheet where
  sheetName : String
  cells : List (List Cell)
deriving Repr, DecidableEq

/-- The produced workbook. -/
structure Workbook where
  sheets : List Sheet
deriving Repr, DecidableEq

/-- `final_df.to_excel(writer, index=False, sheet_name='Data')` inside a
single `pd.ExcelWriter` (lines 230-232): one sheet named `"Data"`, whose
first row is the header and whose remaining rows are the data rows in
order, with no index column. -/
def toExcel (df : DataFrame) : Workbook :=
  ⟨[⟨"Data", (df.columns.map (fun c => some c)) :: df.rows⟩]⟩

/-- The per-table warning branch (lines 71-72): a warning is shown exactly
when a region reached the DataFrame stage and its construction raised. -/
def gridWarns (g : RawGrid) : Bool :=
  decide (1 < g.length) && (mkDataFrame (cleanedHeaders (g.headD [])) g.tail).isNone

/-- Modelled from the spec: "`columnOrder` is reset to `selectedColumns`
in original RawTable order" — the table's column list restricted to the
selected names. -/
def specResetOriginalOrder (tableCols selected : List String) : List String :=
  tableCols.filter (fun c => selected.contains c)

/-- Fixture: a two-column one-row table. -/
def dfAB : DataFrame := ⟨["A", "B"], [[some "1", some "2"]]⟩

/-- Fixture: a clean one-column region with one data row. -/
def gridGood : RawGrid := [[some "H"], [some "v"]]

/-- Fixture: a region whose data row is wider than its header. -/
def gridBad : RawGrid := [[some "H"], [some "a", some "b"]]

/-- Fixture: a region with a blank header cell, an all-blank row and an
all-blank column. -/
def gridMix : RawGrid := [[some "A", none], [some "x", none], [none, none]]

/-- Fixture: the table `gridMix` cleans to. -/
def dfMix : DataFrame := ⟨["A"], [[some "x"]]⟩

/-- Fixture: a session holding a previously extracted table. -/
def stateZ : SessionState := ⟨some ⟨["Z"], [[some "q"]]⟩, ["Z"], ["Z"]⟩

/-- Fixture: same column set as `dfAB`, other order. -/
def dfBA : DataFrame := ⟨["B", "A"], [[some "3", some "4"]]⟩

/-- Fixture: a one-column table with column "A". -/
def dfA : DataFrame := ⟨["A"], [[some "x"]]⟩

/-- Fixture: a one-column table with column "B". -/
def dfB : DataFrame := ⟨["B"], [[some "y"]]⟩

/-- Fixture: a table with a duplicated column name, reachable because
header cleaning does not deduplicate. -/
def dfAA : DataFrame := ⟨["A", "A"], [[some "1", some "2"]]⟩

theorem le_foldl_max (xs : List Nat) : ∀ a x, (x ≤ a ∨ x ∈ xs) → x ≤ xs.foldl max a := by
  induction xs with
  | nil =>
    intro a x h
    rcases h with h | h
    · exact h
    · simp at h
  | cons b bs ih =>
    intro a x h
    simp only [List.foldl_cons]
    rcases h with h | h
    · exact ih (max a b) x (Or.inl (le_trans h (le_max_left a b)))
    · rcases List.mem_cons.mp h with h | h
      · exact ih (max a b) x (Or.inl (h ▸ le_max_right a b))
      · exact ih (max a b) x (Or.inr h)

theorem mkDataFrame_some (cols : List String) (rows : List (List Cell)) (df : DataFrame)
    (h : mkDataFrame cols rows = some df) :
    df.WF ∧ df.columns = cols ∧
      df.rows = rows.map (fun r => r ++ List.replicate (cols.length - r.length) (none : Cell)) := by
  unfold mkDataFrame at h
  by_cases hw : (rows.map List.length).foldl max 0 = cols.length
  · simp only [hw, if_true, Option.some.injEq] at h
    subst h
    refine ⟨?_, rfl, rfl⟩
    intro r hr
    simp only [List.mem_map] at hr
    obtain ⟨r0, hr0, hpad⟩ := hr
    have hle : r0.length ≤ cols.length := by
      rw [← hw]
      exact le_foldl_max (rows.map List.length) 0 r0.length
        (Or.inr (List.mem_map.mpr ⟨r0, hr0, rfl⟩))
    rw [← hpad]
    simp
    omega
  · simp [hw] at h


/-- C3: for every well-formed projected table with at least one column —
zero data rows included — export yields a single-sheet workbook whose
sheet is named "Data", whose first row is the header `column_order`, with
one data row per table row in order, and no index column (every row has
exactly one cell per column). -/
theorem excel_export_shape (df : DataFrame) (hwf : df.WF) (_hcols : df.columns ≠ []) :
    ∃ s : Sheet, (toExcel df).sheets = [s] ∧ s.sheetName = "Data" ∧
      s.cells = (df.columns.map (fun c => some c)) :: df.rows ∧
      s.cells.length = df.rows.length + 1 ∧ s.cells.tail = df.rows ∧
      ∀ row ∈ s.cells, row.length = df.columns.length := by
  refine ⟨⟨"Data", (df.columns.map (fun c => some c)) :: df.rows⟩, rfl, rfl, rfl, by simp, rfl, ?_⟩
  intro row hrow
  rcases List.mem_cons.mp hrow with h | h
  · subst h
    simp
  · exact hwf row h

theorem excel_export_shape_witness :
    ∃ s : Sheet, (toExcel ⟨["A"], []⟩).sheets = [s] ∧ s.sheetName = "Data" ∧
      s.cells = ((["A"] : List String).map (fun c => some c)) :: ([] : List (List Cell)) ∧
      s.cells.length = ([] : List (List Cell)).length + 1 ∧
      s.cells.tail = ([] : List (List Cell)) ∧
      ∀ row ∈ s.cells, row.length = (["A"] : List String).length :=
  excel_export_shape ⟨["A"], []⟩ (by intro r hr; simp at hr) (by simp)

/-- C9: every extraction-time failure (library exception or no surviving
table) is returned as a structured error value and leaves the prior
session state untouched; a library exception is reported as
`extractionError` with its message. -/
theorem upload_errors_preserve_state :
    ∀ (s : SessionState) (inp : IngestInput) (choice : TableChoice),
      ((processUpload s inp choice).2.isSome → (processUpload s inp choice).1 = s) ∧
      (∀ m, processUpload s (IngestInput.exn m) choice =
        (s, some (IngestError.extractionError m))) := by
  intro s inp choice
  refine ⟨?_, fun m => rfl⟩
  cases inp with
  | exn m => intro _; rfl
  | pages ps =>
    intro h
    rcases hx : extractTables ps with e | tables
    · simp [processUpload, hx]
    · rcases tables with _ | ⟨t, ts⟩
      · simp [processUpload, hx]
      · rcases ts with _ | ⟨t2, ts2⟩
        · simp [processUpload, hx] at h
        · cases choice with
          | merge =>
            rcases hm : mergeAll (t :: t2 :: ts2) with _ | m
            · simp [processUpload, hx, hm]
            · simp [processUpload, hx, hm] at h
          | pick i => simp [processUpload, hx] at h

theorem upload_errors_preserve_state_witness :
    (processUpload stateZ (IngestInput.pages []) TableChoice.merge).1 = stateZ ∧
    processUpload stateZ (IngestInput.exn "bad PDF") TableChoice.merge =
      (stateZ, some (IngestError.extractionError "bad PDF")) :=
  ⟨(upload_errors_preserve_state stateZ (IngestInput.pages []) TableChoice.merge).1 (by decide),
   (upload_errors_preserve_state stateZ (IngestInput.exn "bad PDF") TableChoice.merge).2 "bad PDF"⟩

/-- C10: a region with fewer than two raw rows is discarded, and every
table that survives processing has at least one data row and at least one
column. -/
theorem stored_tables_nonempty :
    ∀ g : RawGrid,
      (g.length ≤ 1 → processGrid g = none) ∧
      (∀ df, processGrid g = some df → df.rows ≠ [] ∧ df.columns ≠ []) := by
  intro g
  constructor
  · intro h
    unfold processGrid
    simp [h]
  · intro df h
    unfold processGrid at h
    split at h
    · exact absurd h (by simp)
    · rcases hmk : mkDataFrame (cleanedHeaders (g.headD [])) g.tail with _ | df0
      · rw [hmk] at h
        exact absurd h (by simp)
      · rw [hmk] at h
        simp only [] at h
        by_cases hc : (dropEmptyCols (dropEmptyRows df0)).rows ≠ [] ∧
            (dropEmptyCols (dropEmptyRows df0)).columns ≠ []
        · rw [if_pos hc] at h
          cases h
          exact hc
        · rw [if_neg hc] at h
          exact absurd h (by simp)

theorem stored_tables_nonempty_witness :
    processGrid [[some "H"]] = none ∧
    (dfMix.rows ≠ [] ∧ dfMix.columns ≠ []) :=
  ⟨(stored_tables_nonempty [[some "H"]]).1 (by decide),
   (stored_tables_nonempty gridMix).2 dfMix (by decide)⟩

/-- C4: geometry extraction fails with `noTableFound` exactly when no
table survives filtering across all pages, and a region whose rows cannot
be matched to its header is excluded with a warning while the rest of the
extraction is unaffected. -/
theorem geometry_noTableFound_iff :
    ∀ ps : List (List RawGrid),
      (extractTables ps = Except.error IngestError.noTableFound ↔
        ps.flatten.filterMap processGrid = []) ∧
      (∀ g, 1 < g.length →
        mkDataFrame (cleanedHeaders (g.headD [])) g.tail = none →
        gridWarns g = true ∧ processGrid g = none ∧
          extractTables (ps ++ [[g]]) = extractTables ps) := by
  intro ps
  constructor
  · unfold extractTables
    by_cases h : ps.flatten.filterMap processGrid = []
    · simp [h]
    · rw [if_neg (by simpa [List.isEmpty_iff] using h)]
      constructor
      · intro hcontra
        exact absurd hcontra (by simp)
      · intro hnil
        exact absurd hnil h
  · intro g hlen hmk
    have hnone : processGrid g = none := by
      unfold processGrid
      rw [if_neg (by omega), hmk]
    refine ⟨?_, hnone, ?_⟩
    · unfold gridWarns
      rw [hmk]
      simp [hlen]
    · unfold extractTables
      simp [hnone]

theorem geometry_noTableFound_iff_witness :
    extractTables [] = Except.error IngestError.noTableFound ∧
    gridWarns gridBad = true ∧ processGrid gridBad = none ∧
      extractTables ([[gridGood]] ++ [[gridBad]]) = extractTables [[gridGood]] :=
  ⟨((geometry_noTableFound_iff []).1).mpr (by decide),
   (geometry_noTableFound_iff [[gridGood]]).2 gridBad (by decide) (by decide)⟩

theorem mem_unionCols_foldl (tables : List DataFrame) :
    ∀ (acc : List String) (c : String),
      (c ∈ tables.foldl (fun a t => a ++ t.columns.filter (fun x => !a.contains x)) acc ↔
        c ∈ acc ∨ ∃ t ∈ tables, c ∈ t.columns) := by
  induction tables with
  | nil =>
    intro acc c
    simp
  | cons t ts ih =>
    intro acc c
    simp only [List.foldl_cons]
    rw [ih]
    simp only [List.mem_append, List.mem_filter, Bool.not_eq_true', List.mem_cons]
    constructor
    · rintro (((h | ⟨h1, _⟩) | ⟨u, hu, hc⟩))
      · exact Or.inl h
      · exact Or.inr ⟨t, Or.inl rfl, h1⟩
      · exact Or.inr ⟨u, Or.inr hu, hc⟩
    · rintro (h | ⟨u, (rfl | hu), hc⟩)
      · exact Or.inl (Or.inl h)
      · by_cases hin : c ∈ acc
        · exact Or.inl (Or.inl hin)
        · refine Or.inl (Or.inr ⟨hc, ?_⟩)
          simpa [List.elem_iff] using hin
      · exact Or.inr ⟨u, hu, hc⟩

theorem mem_unionCols (tables : List DataFrame) (c : String) :
    c ∈ unionCols tables ↔ ∃ t ∈ tables, c ∈ t.columns := by
  unfold unionCols
  rw [mem_unionCols_foldl]
  simp

theorem sameSet_true_iff (a b : List String) :
    sameSet a b = true ↔ ((∀ c ∈ a, c ∈ b) ∧ ∀ c ∈ b, c ∈ a) := by
  unfold sameSet
  simp [List.all_eq_true]

theorem sameSet_self (a : List String) : sameSet a a = true := by
  rw [sameSet_true_iff]
  exact ⟨fun c hc => hc, fun c hc => hc⟩

/-- C5 counterexample: two extracted tables with identical column-name
sets where one table carries a duplicated label (columns ["A","A"] and
["A"]): `set(...) == set(...)` holds, but `pd.concat` must align the
frames and raises on the non-unique labels, so the upload errors out and
no merged table exists at all. -/
theorem merge_same_columns_cex :
    sameSet dfAA.columns dfA.columns = true ∧
    mergeAll [dfAA, dfA] = none := by
  decide

/-- C5 (amended): for a family of extracted tables with identical
column-name sets, provided either all tables carry the identical column
list or every table's column names are duplicate-free, merging
concatenates their rows in extraction order into one table whose row
count is the sum of the inputs' row counts and whose column set is
unchanged, with no degraded-merge warning; a family that is only
set-equal through a duplicated label instead raises in `pd.concat` and
produces no merged table. -/
theorem merge_same_columns (t : DataFrame) (ts : List DataFrame)
    (hsame : ∀ u ∈ t :: ts, sameSet u.columns t.columns = true)
    (hok : (∀ u ∈ ts, u.columns = t.columns) ∨ (∀ u ∈ t :: ts, u.columns.Nodup)) :
    ∃ m : DataFrame, mergeAll (t :: ts) = some (m, false) ∧
      m.rows.length = ((t :: ts).map (fun u => u.rows.length)).sum ∧
      sameSet m.columns t.columns = true := by
  have hwarn : (!(t :: ts).all (fun u => sameSet u.columns t.columns)) = false := by
    simp only [Bool.not_eq_false', List.all_eq_true]
    exact hsame
  by_cases hid : ts.all (fun u => u.columns == t.columns) = true
  · refine ⟨⟨t.columns, ((t :: ts).map (fun u => u.rows)).flatten⟩, ?_, ?_, sameSet_self _⟩
    · have hcon : concatTables (t :: ts) =
          some ⟨t.columns, ((t :: ts).map (fun u => u.rows)).flatten⟩ := by
        unfold concatTables
        dsimp only
        rw [if_pos hid]
      unfold mergeAll
      dsimp only
      rw [hcon]
      dsimp only
      rw [hwarn]
    · show (((t :: ts).map (fun u => u.rows)).flatten).length = _
      rw [List.length_flatten, List.map_map]
      rfl
  · have hnd : ∀ u ∈ t :: ts, u.columns.Nodup := by
      rcases hok with hidL | hnd
      · exfalso
        apply hid
        rw [List.all_eq_true]
        intro u hu
        rw [beq_iff_eq]
        exact hidL u hu
      · exact hnd
    have hndb : ((t :: ts).all (fun u => u.columns.Nodup)) = true := by
      rw [List.all_eq_true]
      intro u hu
      exact decide_eq_true (hnd u hu)
    have hcon : concatTables (t :: ts) = some ⟨unionCols (t :: ts),
        ((t :: ts).map (fun v => v.rows.map (alignRow v.columns (unionCols (t :: ts))))).flatten⟩ := by
      unfold concatTables
      dsimp only
      rw [if_neg hid, if_pos hndb]
    refine ⟨⟨unionCols (t :: ts),
      ((t :: ts).map (fun v => v.rows.map (alignRow v.columns (unionCols (t :: ts))))).flatten⟩,
      ?_, ?_, ?_⟩
    · unfold mergeAll
      dsimp only
      rw [hcon]
      dsimp only
      rw [hwarn]
    · show (((t :: ts).map (fun v => v.rows.map (alignRow v.columns (unionCols (t :: ts))))).flatten).length = _
      rw [List.length_flatten, List.map_map]
      congr 1
      apply List.map_congr_left
      intro u _
      simp
    · show sameSet (unionCols (t :: ts)) t.columns = true
      rw [sameSet_true_iff]
      constructor
      · intro c hc
        obtain ⟨u, hu, hcu⟩ := (mem_unionCols _ c).mp hc
        exact ((sameSet_true_iff _ _).mp (hsame u hu)).1 c hcu
      · intro c hc
        exact (mem_unionCols _ c).mpr ⟨t, List.mem_cons_self t ts, hc⟩

theorem merge_same_columns_witness :
    ∃ m : DataFrame, mergeAll [dfAB, dfBA] = some (m, false) ∧
      m.rows.length = ([dfAB, dfBA].map (fun u => u.rows.length)).sum ∧
      sameSet m.columns dfAB.columns = true :=
  merge_same_columns dfAB [dfBA] (by decide) (Or.inr (by decide))

theorem alignRow_absent_all (tcols u : List String) (r : List Cell) :
    ((List.range u.length).all (fun j =>
      tcols.contains (u.getD j "") || isNACell ((alignRow tcols u r).getD j none))) = true := by
  rw [List.all_eq_true]
  intro j hj
  rw [List.mem_range] at hj
  by_cases hc : tcols.contains (u.getD j "") = true
  · rw [Bool.or_eq_true]
    exact Or.inl hc
  · have hval : (alignRow tcols u r).getD j none = none := by
      unfold alignRow
      rw [List.getD_eq_getElem _ _ (by simpa using hj), List.getElem_map,
        ← List.getD_eq_getElem u "" hj]
      simp only [Bool.not_eq_true] at hc
      rw [hc]
      simp
    rw [hval]
    simp [isNACell]

/-- C6 counterexample: two extracted tables whose column sets differ
where one table carries a duplicated label (columns ["A","A"] and
["B"]): the degraded union merge does not succeed with a warning —
`pd.concat` raises on the non-unique labels and the upload errors out. -/
theorem merge_union_columns_cex :
    sameSet dfB.columns dfAA.columns = false ∧
    mergeAll [dfAA, dfB] = none := by
  decide

/-- C6 (amended): for two extracted tables whose column sets differ and
whose column names are each duplicate-free, merging succeeds, producing
a table whose column set is the union of the inputs' column sets, whose
rows are both inputs' rows in order, with cells of columns absent from a
row's source table empty (NA), surfaced as a warning rather than an
error; when either table carries a duplicated column name `pd.concat`
raises instead and the upload fails with an error. -/
theorem merge_union_columns (t1 t2 : DataFrame) (h1 : t1.columns.Nodup)
    (h2 : t2.columns.Nodup) (hdiff : sameSet t2.columns t1.columns = false) :
    ∃ m : DataFrame, mergeAll [t1, t2] = some (m, true) ∧
      sameSet m.columns (t1.columns ++ t2.columns) = true ∧
      m.rows.length = t1.rows.length + t2.rows.length ∧
      m.rows = t1.rows.map (alignRow t1.columns (unionCols [t1, t2])) ++
        t2.rows.map (alignRow t2.columns (unionCols [t1, t2])) ∧
      ((m.rows.drop t1.rows.length).all (fun r =>
        (List.range (unionCols [t1, t2]).length).all (fun j =>
          t2.columns.contains ((unionCols [t1, t2]).getD j "") ||
            isNACell (r.getD j none)))) = true ∧
      ((m.rows.take t1.rows.length).all (fun r =>
        (List.range (unionCols [t1, t2]).length).all (fun j =>
          t1.columns.contains ((unionCols [t1, t2]).getD j "") ||
            isNACell (r.getD j none)))) = true := by
  have hne : ([t2].all (fun u => u.columns == t1.columns)) = false := by
    simp only [List.all_cons, List.all_nil, Bool.and_true]
    rw [beq_eq_false_iff_ne]
    intro heq
    rw [heq, sameSet_self] at hdiff
    exact Bool.true_eq_false_eq_False hdiff
  have hndb : ([t1, t2].all (fun u => u.columns.Nodup)) = true := by
    rw [List.all_eq_true]
    intro u hu
    simp only [List.mem_cons, List.not_mem_nil, or_false] at hu
    rcases hu with rfl | rfl
    · exact decide_eq_true h1
    · exact decide_eq_true h2
  have hcon : concatTables [t1, t2] = some ⟨unionCols [t1, t2],
      (([t1, t2]).map (fun v => v.rows.map (alignRow v.columns (unionCols [t1, t2])))).flatten⟩ := by
    unfold concatTables
    dsimp only
    rw [if_neg (by rw [hne]; exact Bool.false_ne_true), if_pos hndb]
  have hwarn : (!([t1, t2].all (fun u => sameSet u.columns t1.columns))) = true := by
    simp only [Bool.not_eq_true', List.all_eq_false]
    exact ⟨t2, by simp, by simp [hdiff]⟩
  refine ⟨⟨unionCols [t1, t2],
    (([t1, t2]).map (fun v => v.rows.map (alignRow v.columns (unionCols [t1, t2])))).flatten⟩,
    ?_, ?_, ?_, ?_, ?_, ?_⟩
  · unfold mergeAll
    dsimp only
    rw [hcon]
    dsimp only
    rw [hwarn]
  · show sameSet (unionCols [t1, t2]) (t1.columns ++ t2.columns) = true
    rw [sameSet_true_iff]
    constructor
    · intro c hc
      obtain ⟨u, hu, hcu⟩ := (mem_unionCols _ c).mp hc
      simp only [List.mem_cons, List.not_mem_nil, or_false] at hu
      rcases hu with rfl | rfl
      · exact List.mem_append.mpr (Or.inl hcu)
      · exact List.mem_append.mpr (Or.inr hcu)
    · intro c hc
      rcases List.mem_append.mp hc with h | h
      · exact (mem_unionCols _ c).mpr ⟨t1, by simp, h⟩
      · exact (mem_unionCols _ c).mpr ⟨t2, by simp, h⟩
  · show ((([t1, t2]).map (fun v => v.rows.map (alignRow v.columns (unionCols [t1, t2])))).flatten).length = _
    simp
  · show ((([t1, t2]).map (fun v => v.rows.map (alignRow v.columns (unionCols [t1, t2])))).flatten) = _
    simp
  · show ((((([t1, t2]).map (fun v => v.rows.map (alignRow v.columns (unionCols [t1, t2])))).flatten).drop t1.rows.length).all _) = true
    have hsplit : ((([t1, t2]).map (fun v => v.rows.map (alignRow v.columns (unionCols [t1, t2])))).flatten) =
        t1.rows.map (alignRow t1.columns (unionCols [t1, t2])) ++
          t2.rows.map (alignRow t2.columns (unionCols [t1, t2])) := by
      simp
    rw [hsplit]
    have hA : (t1.rows.map (alignRow t1.columns (unionCols [t1, t2]))).length =
        t1.rows.length := by simp
    rw [← hA, List.drop_left, List.all_eq_true]
    intro r hr
    obtain ⟨r0, _, rfl⟩ := List.mem_map.mp hr
    exact alignRow_absent_all t2.columns (unionCols [t1, t2]) r0
  · show ((((([t1, t2]).map (fun v => v.rows.map (alignRow v.columns (unionCols [t1, t2])))).flatten).take t1.rows.length).all _) = true
    have hsplit : ((([t1, t2]).map (fun v => v.rows.map (alignRow v.columns (unionCols [t1, t2])))).flatten) =
        t1.rows.map (alignRow t1.columns (unionCols [t1, t2])) ++
          t2.rows.map (alignRow t2.columns (unionCols [t1, t2])) := by
      simp
    rw [hsplit]
    have hA : (t1.rows.map (alignRow t1.columns (unionCols [t1, t2]))).length =
        t1.rows.length := by simp
    rw [← hA, List.take_left, List.all_eq_true]
    intro r hr
    obtain ⟨r0, _, rfl⟩ := List.mem_map.mp hr
    exact alignRow_absent_all t1.columns (unionCols [t1, t2]) r0

theorem merge_union_columns_witness :
    ∃ m : DataFrame, mergeAll [dfA, dfB] = some (m, true) ∧
      sameSet m.columns (dfA.columns ++ dfB.columns) = true ∧
      m.rows.length = dfA.rows.length + dfB.rows.length ∧
      m.rows = dfA.rows.map (alignRow dfA.columns (unionCols [dfA, dfB])) ++
        dfB.rows.map (alignRow dfB.columns (unionCols [dfA, dfB])) ∧
      ((m.rows.drop dfA.rows.length).all (fun r =>
        (List.range (unionCols [dfA, dfB]).length).all (fun j =>
          dfB.columns.contains ((unionCols [dfA, dfB]).getD j "") ||
            isNACell (r.getD j none)))) = true ∧
      ((m.rows.take dfA.rows.length).all (fun r =>
        (List.range (unionCols [dfA, dfB]).length).all (fun j =>
          dfA.columns.contains ((unionCols [dfA, dfB]).getD j "") ||
            isNACell (r.getD j none)))) = true :=
  merge_union_columns dfA dfB (by decide) (by decide) (by decide)

theorem columnN_ne_empty (n : Nat) : ("Column_" ++ toString n) ≠ "" := by
  intro h
  have hlen := congrArg String.length h
  rw [String.length_append] at hlen
  have h7 : ("Column_" : String).length = 7 := rfl
  have h0 : ("" : String).length = 0 := rfl
  rw [h7, h0] at hlen
  omega

/-- C7 counterexample: header cleaning does not deduplicate column
names — two identical non-blank header cells stay identical. -/
theorem cleaned_headers_cex :
    cleanedHeaders [some "A", some "A"] = ["A", "A"] ∧
    ¬ (cleanedHeaders [some "A", some "A"]).Nodup := by
  constructor
  · decide
  · decide

/-- C7 (amended): header cleaning keeps one name per header cell and
synthesizes `Column_N` (`N` the 1-based position) for every blank
(missing, empty or whitespace-only) header cell, so that every resulting
header is non-empty; duplicate non-blank names are NOT deduplicated. -/
theorem cleaned_headers_blank_renamed :
    ∀ headers : List Cell,
      (cleanedHeaders headers).length = headers.length ∧
      (∀ i, i < headers.length →
        (headers.getD i none = none ∨
          ∃ s, headers.getD i none = some s ∧ pyStrip s = "") →
        (cleanedHeaders headers).getD i "" = "Column_" ++ toString (i + 1)) ∧
      (∀ h ∈ cleanedHeaders headers, h ≠ "") := by
  intro headers
  have hlen : (cleanedHeaders headers).length = headers.length := by
    unfold cleanedHeaders
    simp
  refine ⟨hlen, ?_, ?_⟩
  · intro i hi hblank
    have hi' : i < (cleanedHeaders headers).length := by rw [hlen]; exact hi
    rw [List.getD_eq_getElem _ _ hi']
    unfold cleanedHeaders
    rw [List.getElem_map, List.getElem_enum]
    rw [List.getD_eq_getElem _ _ hi] at hblank
    rcases hblank with hn | ⟨s, hs, hstrip⟩
    · rw [hn]
      rfl
    · rw [hs]
      show (if s ≠ "" ∧ pyStrip s ≠ "" then pyStrip s else "Column_" ++ toString (i + 1)) =
        "Column_" ++ toString (i + 1)
      rw [if_neg]
      intro hcon
      exact hcon.2 hstrip
  · intro h hmem
    unfold cleanedHeaders at hmem
    obtain ⟨⟨i, c⟩, _, rfl⟩ := List.mem_map.mp hmem
    match c with
    | none => exact columnN_ne_empty (i + 1)
    | some s =>
      show (if s ≠ "" ∧ pyStrip s ≠ "" then pyStrip s else "Column_" ++ toString (i + 1)) ≠ ""
      by_cases hc : s ≠ "" ∧ pyStrip s ≠ ""
      · rw [if_pos hc]
        exact hc.2
      · rw [if_neg hc]
        exact columnN_ne_empty (i + 1)

theorem cleaned_headers_blank_renamed_witness :
    (cleanedHeaders [some "Name", none, some "  "]).getD 1 "" = "Column_" ++ toString 2 ∧
    (cleanedHeaders [some "Name", none, some "  "]).getD 2 "" = "Column_" ++ toString 3 ∧
    cleanedHeaders [some "Name", none, some "  "] = ["Name", "Column_2", "Column_3"] :=
  ⟨(cleaned_headers_blank_renamed [some "Name", none, some "  "]).2.1 1 (by decide)
      (Or.inl (by decide)),
   (cleaned_headers_blank_renamed [some "Name", none, some "  "]).2.1 2 (by decide)
      (Or.inr ⟨"  ", by decide, by decide⟩),
   by decide⟩

theorem dropEmptyRows_no_blank (df : DataFrame) :
    ∀ r ∈ (dropEmptyRows df).rows, r.all isNACell = false := by
  intro r hr
  unfold dropEmptyRows at hr
  simp only [List.mem_filter, Bool.not_eq_true'] at hr
  exact hr.2

theorem dropEmptyRows_wf (df : DataFrame) (h : df.WF) : (dropEmptyRows df).WF := by
  intro r hr
  unfold dropEmptyRows at hr ⊢
  exact h r (List.mem_filter.mp hr).1

theorem dropEmptyCols_no_blank_col (df : DataFrame) :
    ∀ j, j < (dropEmptyCols df).columns.length → colIsNA (dropEmptyCols df).rows j = false := by
  intro j hj
  unfold dropEmptyCols at hj ⊢
  set keep := (List.range df.columns.length).filter (fun i => !colIsNA df.rows i) with hkeep
  simp only [List.length_map] at hj
  have hjmem : keep.get ⟨j, hj⟩ ∈ keep := List.get_mem keep j hj
  have hprop := (List.mem_filter.mp hjmem).2
  rw [Bool.not_eq_true'] at hprop
  unfold colIsNA at hprop ⊢
  rw [List.all_eq_false] at hprop ⊢
  obtain ⟨r, hrmem, hrcell⟩ := hprop
  refine ⟨keep.map (fun i => r.getD i none), List.mem_map.mpr ⟨r, hrmem, rfl⟩, ?_⟩
  rw [List.getD_eq_getElem _ _ (by simpa using hj), List.getElem_map]
  exact hrcell

theorem dropEmptyCols_no_blank_row (df : DataFrame) (hwf : df.WF)
    (hrows : ∀ r ∈ df.rows, r.all isNACell = false) :
    ∀ r ∈ (dropEmptyCols df).rows, r.all isNACell = false := by
  intro r2 hr2
  unfold dropEmptyCols at hr2
  set keep := (List.range df.columns.length).filter (fun i => !colIsNA df.rows i) with hkeep
  obtain ⟨r, hrmem, rfl⟩ := List.mem_map.mp hr2
  rw [List.all_eq_false]
  have h1 := hrows r hrmem
  rw [List.all_eq_false] at h1
  obtain ⟨c, hcmem, hcna⟩ := h1
  obtain ⟨i, hi, rfl⟩ := List.mem_iff_getElem.mp hcmem
  have hilt : i < df.columns.length := by rw [← hwf r hrmem]; exact hi
  have hkmem : i ∈ keep := by
    rw [hkeep, List.mem_filter]
    refine ⟨List.mem_range.mpr hilt, ?_⟩
    rw [Bool.not_eq_true']
    unfold colIsNA
    rw [List.all_eq_false]
    exact ⟨r, hrmem, by rw [List.getD_eq_getElem _ _ hi]; exact hcna⟩
  refine ⟨r.getD i none, List.mem_map.mpr ⟨i, hkmem, rfl⟩, ?_⟩
  rw [List.getD_eq_getElem _ _ hi]
  exact hcna

/-- C8: in every table stored after extraction, nothing fully empty
remains: no row all of whose cells are NA and no column all of whose
cells are NA (fully empty rows and columns have been dropped). -/
theorem empty_rows_cols_dropped :
    ∀ g df, processGrid g = some df →
      (∀ r ∈ df.rows, r.all isNACell = false) ∧
      (∀ j, j < df.columns.length → colIsNA df.rows j = false) := by
  intro g df h
  unfold processGrid at h
  split at h
  · exact absurd h (by simp)
  · rcases hmk : mkDataFrame (cleanedHeaders (g.headD [])) g.tail with _ | df0
    · rw [hmk] at h
      exact absurd h (by simp)
    · rw [hmk] at h
      simp only [] at h
      by_cases hc : (dropEmptyCols (dropEmptyRows df0)).rows ≠ [] ∧
          (dropEmptyCols (dropEmptyRows df0)).columns ≠ []
      · rw [if_pos hc] at h
        cases h
        have hwf0 := (mkDataFrame_some _ _ _ hmk).1
        have hwf1 : (dropEmptyRows df0).WF := dropEmptyRows_wf df0 hwf0
        exact ⟨dropEmptyCols_no_blank_row _ hwf1 (dropEmptyRows_no_blank df0),
          dropEmptyCols_no_blank_col _⟩
      · rw [if_neg hc] at h
        exact absurd h (by simp)

theorem empty_rows_cols_dropped_witness :
    (([some "x"] : List Cell).all isNACell = false) ∧ colIsNA dfMix.rows 0 = false :=
  ⟨(empty_rows_cols_dropped gridMix dfMix (by decide)).1 [some "x"] (by decide),
   (empty_rows_cols_dropped gridMix dfMix (by decide)).2 0 (by decide)⟩

theorem getD_cons_eraseIdx_perm :
    ∀ (l : List String) (i : Nat), i < l.length → (l.getD i "" :: l.eraseIdx i).Perm l := by
  intro l
  induction l with
  | nil =>
    intro i hi
    simp at hi
  | cons a t ih =>
    intro i hi
    cases i with
    | zero => exact List.Perm.refl _
    | succ n =>
      have hn : n < t.length := by simpa using hi
      have hswap : (t.getD n "" :: a :: t.eraseIdx n).Perm (a :: t.getD n "" :: t.eraseIdx n) :=
        List.Perm.swap a (t.getD n "") (t.eraseIdx n)
      exact hswap.trans (List.Perm.cons a (ih n hn))

theorem reorderAux_perm (choose : Nat → List String → Nat) :
    ∀ (fuel : Nat) (avail : List String), avail.length ≤ fuel →
      ∀ pos, (reorderAux choose fuel pos avail).Perm avail := by
  intro fuel
  induction fuel with
  | zero =>
    intro avail h pos
    have hnil : avail = [] := List.eq_nil_of_length_eq_zero (Nat.le_zero.mp h)
    subst hnil
    exact List.Perm.refl _
  | succ n ih =>
    intro avail h pos
    match avail with
    | [] => exact List.Perm.refl _
    | a :: rest =>
      show ((a :: rest).getD (choose pos (a :: rest) % (a :: rest).length) "" ::
        reorderAux choose n (pos + 1)
          ((a :: rest).eraseIdx (choose pos (a :: rest) % (a :: rest).length))).Perm (a :: rest)
      have hi : choose pos (a :: rest) % (a :: rest).length < (a :: rest).length :=
        Nat.mod_lt _ (by simp)
      have hlen : ((a :: rest).eraseIdx (choose pos (a :: rest) % (a :: rest).length)).length ≤ n := by
        rw [List.length_eraseIdx]
        simp only [hi, if_pos]
        simp only [List.length_cons] at h ⊢
        omega
      exact (List.Perm.cons _ (ih _ hlen (pos + 1))).trans (getD_cons_eraseIdx_perm _ _ hi)

theorem reorderStep_perm (selected order : List String) (choose : Nat → List String → Nat) :
    (reorderStep selected order choose).Perm selected := by
  unfold reorderStep
  exact reorderAux_perm _ selected.length selected le_rfl 0

theorem reorderAux_defaults (l : List String) :
    ∀ (avail : List String) (fuel pos : Nat), avail = l.drop pos → avail.length ≤ fuel →
      reorderAux (fun p a => (defaultChoice l p a + noUserChoice p a) % a.length) fuel pos avail =
        avail := by
  intro avail
  induction avail with
  | nil =>
    intro fuel pos _ _
    cases fuel <;> rfl
  | cons a rest ih =>
    intro fuel pos hdrop hfuel
    cases fuel with
    | zero => simp at hfuel
    | succ n =>
      have hpos : pos < l.length := by
        by_contra hge
        rw [List.drop_eq_nil_of_le (Nat.le_of_not_lt hge)] at hdrop
        exact absurd hdrop (by simp)
      have hget : l.getD pos "" = a := by
        have h0 : l[pos]? = some a := by
          have hd := List.getElem?_drop l pos 0
          rw [← hdrop] at hd
          simpa using hd.symm
        rw [List.getD_eq_getElem?_getD, h0]
        rfl
      have hchoice : (defaultChoice l pos (a :: rest) + noUserChoice pos (a :: rest)) %
          (a :: rest).length = 0 := by
        unfold defaultChoice noUserChoice
        rw [if_pos ⟨hpos, by rw [hget]; simp⟩, hget, List.indexOf_cons_self]
        simp
      rw [reorderAux]
      simp only [hchoice, Nat.zero_mod, List.getD_cons_zero, List.eraseIdx_cons_zero]
      have hrest : rest = l.drop (pos + 1) := by
        have hd : (l.drop pos).drop 1 = l.drop (pos + 1) := by
          rw [List.drop_drop]
        rw [← hdrop] at hd
        simpa using hd
      rw [ih n (pos + 1) hrest (by simpa using Nat.lt_succ_iff.mp (Nat.lt_of_lt_of_le (Nat.lt_succ_of_le le_rfl) hfuel))]

/-- C1 counterexample: table columns ["A","B","C"], selection ["C","A"]
(a user can select in any order), stale order ["B"].  The sets differ, so
the code resets — but to the selection list as given, ["C","A"], not to
the original-RawTable-order reset ["A","C"] that the claim states. -/
theorem order_reset_cex :
    (["C", "A"] : List String).all (fun c => (["A", "B", "C"] : List String).contains c) = true ∧
    sameSet ["B"] ["C", "A"] = false ∧
    syncOrder ["B"] ["C", "A"] = ["C", "A"] ∧
    specResetOriginalOrder ["A", "B", "C"] ["C", "A"] = ["A", "C"] ∧
    syncOrder ["B"] ["C", "A"] ≠ specResetOriginalOrder ["A", "B", "C"] ["C", "A"] := by
  decide

/-- C1 (amended): when `set(column_order)` differs from
`set(selected_columns)` the order is reset to the selected-columns list
as that list is given (which is original RawTable order whenever the
selection list is, e.g. after select-all), and every pass of the
reordering loop produces a `column_order` that is a permutation of
`selected_columns` — each selected column exactly once when the selection
has no duplicate names. -/
theorem selection_order_bijection :
    ∀ (selected order : List String) (choose : Nat → List String → Nat),
      (sameSet order selected = false → syncOrder order selected = selected) ∧
      (reorderStep selected order choose).Perm selected ∧
      (selected.Nodup → ∀ c ∈ selected, (reorderStep selected order choose).count c = 1) := by
  intro selected order choose
  refine ⟨?_, reorderStep_perm selected order choose, ?_⟩
  · intro h
    unfold syncOrder
    rw [h]
    rfl
  · intro hnd c hc
    rw [(reorderStep_perm selected order choose).count_eq]
    exact List.count_eq_one_of_mem hnd hc

theorem selection_order_bijection_witness :
    syncOrder ["B"] ["A", "B"] = ["A", "B"] ∧
    (reorderStep ["A", "B"] ["B"] noUserChoice).Perm ["A", "B"] ∧
    (reorderStep ["A", "B"] ["B"] noUserChoice).count "A" = 1 :=
  ⟨(selection_order_bijection ["A", "B"] ["B"] noUserChoice).1 (by decide),
   (selection_order_bijection ["A", "B"] ["B"] noUserChoice).2.1,
   (selection_order_bijection ["A", "B"] ["B"] noUserChoice).2.2 (by decide) "A" (by decide)⟩

theorem range_filter_beq (n i : Nat) (h : i < n) :
    (List.range n).filter (fun j => j == i) = [i] := by
  induction n with
  | zero => omega
  | succ m ih =>
    rw [List.range_succ, List.filter_append]
    by_cases him : i < m
    · rw [ih him]
      have hmi : ((m : Nat) == i) = false := by
        rw [beq_eq_false_iff_ne]
        omega
      simp [hmi]
    · have him' : i = m := by omega
      subst him'
      have hnil : (List.range i).filter (fun j => j == i) = [] := by
        rw [List.filter_eq_nil_iff]
        intro j hj
        have hji : j < i := List.mem_range.mp hj
        simp only [beq_iff_eq]
        omega
      rw [hnil]
      simp

theorem filter_matching_indexOf (cols : List String) (c : String)
    (hnd : cols.Nodup) (hc : c ∈ cols) :
    (List.range cols.length).filter (fun j => cols.getD j "" == c) = [cols.indexOf c] := by
  have hlt : cols.indexOf c < cols.length := List.indexOf_lt_length.mpr hc
  rw [← range_filter_beq cols.length (cols.indexOf c) hlt]
  apply List.filter_congr
  intro j hj
  rw [List.mem_range] at hj
  rw [List.getD_eq_getElem _ _ hj, Bool.eq_iff_iff, beq_iff_eq, beq_iff_eq]
  constructor
  · intro he
    have hci : cols[cols.indexOf c] = c := List.getElem_indexOf hlt
    exact (List.Nodup.getElem_inj_iff hnd).mp (by rw [he, hci])
  · intro he
    subst he
    exact List.getElem_indexOf hlt

theorem flatten_map_singleton {α β : Type} (l : List α) (f : α → β) :
    (l.map (fun a => [f a])).flatten = l.map f := by
  induction l with
  | nil => rfl
  | cons a t ih => simp [ih]

theorem projIdxs_nodup (df : DataFrame) (order : List String) (hnd : df.columns.Nodup)
    (hsub : ∀ c ∈ order, c ∈ df.columns) :
    projIdxs df order = order.map (fun c => df.columns.indexOf c) := by
  unfold projIdxs
  rw [← flatten_map_singleton order (fun c => df.columns.indexOf c)]
  congr 1
  apply List.map_congr_left
  intro c hc
  exact filter_matching_indexOf df.columns c hnd (hsub c hc)

theorem projectDF_nodup (df : DataFrame) (order : List String) (hnd : df.columns.Nodup)
    (hsub : ∀ c ∈ order, c ∈ df.columns) :
    projectDF df order = some ⟨order,
      df.rows.map (fun r => order.map (fun c => r.getD (df.columns.indexOf c) none))⟩ := by
  have hall : (order.all (fun c => df.columns.contains c)) = true := by
    rw [List.all_eq_true]
    intro c hc
    rw [List.elem_iff]
    exact hsub c hc
  unfold projectDF
  rw [if_pos hall, projIdxs_nodup df order hnd hsub]
  have hcols : (order.map (fun c => df.columns.indexOf c)).map (fun j => df.columns.getD j "") =
      order := by
    rw [List.map_map]
    have hid : ∀ c ∈ order, df.columns.getD (df.columns.indexOf c) "" = c := by
      intro c hc
      have hlt : df.columns.indexOf c < df.columns.length :=
        List.indexOf_lt_length.mpr (hsub c hc)
      rw [List.getD_eq_getElem _ _ hlt]
      exact List.getElem_indexOf hlt
    calc (order.map ((fun j => df.columns.getD j "") ∘ fun c => df.columns.indexOf c)) =
        order.map (fun c => c) := List.map_congr_left (fun c hc => hid c hc)
      _ = order := List.map_id order
  rw [hcols]
  have hrows : ∀ r : List Cell,
      (order.map (fun c => df.columns.indexOf c)).map (fun j => r.getD j none) =
        order.map (fun c => r.getD (df.columns.indexOf c) none) := by
    intro r
    rw [List.map_map]
    rfl
  have hrows2 : df.rows.map (fun r => (order.map (fun c => df.columns.indexOf c)).map
      (fun j => r.getD j none)) =
      df.rows.map (fun r => order.map (fun c => r.getD (df.columns.indexOf c) none)) :=
    List.map_congr_left (fun r _ => hrows r)
  rw [hrows2]

/-- C2 counterexample, two failure modes.  First, a session whose
`column_order` is the stale permutation ["B","A"] of the same column
set: select-all keeps that order (the sets match, so no reset), the
selectbox defaults reproduce it, and the exported sheet's header row is
["B","A"] — not the table's original column order ["A","B"].  Second, a
table with the duplicated column list ["A","A"] (reachable, since header
cleaning does not deduplicate): select-all orders ["A","A"] and pandas
list-indexing expands each listed label to every matching column, so the
projected frame has four columns — no column appears exactly once. -/
theorem select_all_export_cex :
    selectAllThenOrder dfAB ["B", "A"] = ["B", "A"] ∧
    selectAllThenOrder dfAB ["B", "A"] ≠ dfAB.columns ∧
    (projectDF dfAB (selectAllThenOrder dfAB ["B", "A"])).map toExcel =
      some ⟨[⟨"Data", [[some "B", some "A"], [some "2", some "1"]]⟩]⟩ ∧
    selectAllThenOrder dfAA [] = ["A", "A"] ∧
    (projectDF dfAA (selectAllThenOrder dfAA [])).map (fun p => p.columns) =
      some ["A", "A", "A", "A"] := by
  decide

/-- C2 (amended): for a table whose column names are distinct (header
cleaning does not deduplicate, so duplicate-named columns are possible
and are then exported once per matching column), selecting all columns
and exporting yields a spreadsheet containing every original column
exactly once (the export order is a permutation of the original
columns); the order is the table's original column order whenever the
prior `column_order` is not set-equal to the full column set — in
particular in a fresh session — but a stale permutation of the full set
is kept. -/
theorem select_all_export (df : DataFrame) (prev : List String) (hnd : df.columns.Nodup) :
    (selectAllThenOrder df prev).Perm df.columns ∧
    (∀ c ∈ df.columns, (selectAllThenOrder df prev).count c = 1) ∧
    (sameSet prev df.columns = false → selectAllThenOrder df prev = df.columns) ∧
    (∃ pdf : DataFrame, projectDF df (selectAllThenOrder df prev) = some pdf ∧
      pdf.columns = selectAllThenOrder df prev ∧
      (toExcel pdf).sheets =
        [⟨"Data", ((selectAllThenOrder df prev).map (fun c => some c)) :: pdf.rows⟩]) := by
  have hperm : (selectAllThenOrder df prev).Perm df.columns :=
    reorderStep_perm df.columns prev noUserChoice
  refine ⟨hperm, ?_, ?_, ?_⟩
  · intro c hc
    rw [hperm.count_eq]
    exact List.count_eq_one_of_mem hnd hc
  · intro hdiffer
    unfold selectAllThenOrder reorderStep
    have hsync : syncOrder prev df.columns = df.columns := by
      unfold syncOrder
      rw [hdiffer]
      rfl
    rw [hsync]
    exact reorderAux_defaults df.columns df.columns df.columns.length 0 (by simp) le_rfl
  · have hsub : ∀ c ∈ selectAllThenOrder df prev, c ∈ df.columns := fun c hc =>
      hperm.mem_iff.mp hc
    exact ⟨⟨selectAllThenOrder df prev,
      df.rows.map (fun r => (selectAllThenOrder df prev).map
        (fun c => r.getD (df.columns.indexOf c) none))⟩,
      projectDF_nodup df _ hnd hsub, rfl, rfl⟩

theorem select_all_export_witness :
    (selectAllThenOrder dfAB []).Perm dfAB.columns ∧
    selectAllThenOrder dfAB [] = dfAB.columns ∧
    (selectAllThenOrder dfAB []).count "A" = 1 :=
  ⟨(select_all_export dfAB [] (by decide)).1,
   (select_all_export dfAB [] (by decide)).2.2.1 (by decide),
   (select_all_export dfAB [] (by decide)).2.1 "A" (by decide)⟩
